import Mathlib

/-!
Shallow embedding of `src/version.rs` of the `alpmver` crate: the segment
comparator `vercomp`, the decomposition `Version::as_components`, the
re-composition `VersionComponents::to_version`, and the derived orderings.

Strings are modelled as `List Char`; all the character classes involved
(`is_ascii_digit`, `is_ascii_alphabetic`, `is_ascii_alphanumeric`) are
ASCII-only, exactly as `Char.isDigit`, `Char.isAlpha` and `Char.isAlphanum`.
A result of `none` models a panic: the only panic site in the source is the
`u128::from_str(...).unwrap()` pair on lines 80-81, which fails when a digit
run denotes a value of at least `2 ^ 128`.
-/

namespace AlpmVer

/-- A character belongs to a separator run when it is not ASCII alphanumeric
(the predicate of `take_noalnum`, line 18). -/
def isSep (c : Char) : Bool := !c.isAlphanum

/-- Embedding of `take_alpha` (lines 5-9): consume the maximal leading run of
ASCII letters, returning `(rest, run)` like the nom-based original. -/
def take_alpha (i : List Char) : List Char × List Char :=
  (i.dropWhile Char.isAlpha, i.takeWhile Char.isAlpha)

/-- Embedding of `take_digits` (lines 11-15). -/
def take_digits (i : List Char) : List Char × List Char :=
  (i.dropWhile Char.isDigit, i.takeWhile Char.isDigit)

/-- Embedding of `take_noalnum` (lines 17-21). -/
def take_noalnum (i : List Char) : List Char × List Char :=
  (i.dropWhile isSep, i.takeWhile isSep)

/-- Embedding of `atend` (lines 23-25). -/
def atend (a b : List Char) : Bool := a.isEmpty || b.isEmpty

/-- Rust `starts_with(|c: char| c.is_ascii_digit())`. -/
def startsDigit : List Char → Bool
  | [] => false
  | c :: _ => c.isDigit

/-- Rust `starts_with(|c: char| c.is_ascii_alphabetic())`. -/
def startsAlpha : List Char → Bool
  | [] => false
  | c :: _ => c.isAlpha

/-- Numeric value denoted by a decimal digit run. -/
def digitsVal (s : List Char) : Nat :=
  s.foldl (fun acc c => acc * 10 + (c.toNat - 48)) 0

/-- `u128::from_str` on a digit run: the denoted value when it fits in 128
bits, `none` (an overflow `Err`) otherwise. -/
def u128_from_str (s : List Char) : Option Nat :=
  if digitsVal s < 2 ^ 128 then some (digitsVal s) else none

/-- The lexicographic byte order of `str::cmp`; the runs compared in the
source are ASCII, where codepoint order and byte order agree. -/
def str_cmp : List Char → List Char → Ordering
  | [], [] => .eq
  | [], _ :: _ => .lt
  | _ :: _, [] => .gt
  | a :: as, b :: bs =>
    match compare a.toNat b.toNat with
    | .eq => str_cmp as bs
    | o => o

/-- Lines 102-116 of `vercomp`: the post-loop trailing-remainder rule. -/
def tailRule (rem1 rem2 : List Char) : Ordering :=
  if rem1.isEmpty && rem2.isEmpty then .eq
  else if (rem1.isEmpty && !startsAlpha rem2) || startsAlpha rem1 then .lt
  else .gt

theorem dropWhile_length_lt (p : Char → Bool) (c : Char) (t : List Char)
    (hc : p c = true) : ((c :: t).dropWhile p).length < (c :: t).length := by
  rw [List.dropWhile_cons_of_pos hc]
  exact Nat.lt_succ_of_le (t.dropWhile_sublist p).length_le

theorem progress_digits (beg1 : List Char)
    (hd : startsDigit (take_noalnum beg1).1 = true) :
    (take_digits (take_noalnum beg1).1).1.length < beg1.length := by
  rcases hr : (take_noalnum beg1).1 with _ | ⟨c, t⟩
  · rw [hr] at hd; simp [startsDigit] at hd
  · rw [hr] at hd
    have hc : c.isDigit = true := hd
    have h1 : (take_digits (c :: t)).1.length < (c :: t).length :=
      dropWhile_length_lt Char.isDigit c t hc
    have h2 : (c :: t).length ≤ beg1.length := by
      rw [← hr]
      exact (beg1.dropWhile_sublist isSep).length_le
    exact Nat.lt_of_lt_of_le h1 h2

theorem progress_alpha (beg1 : List Char)
    (hne : (take_noalnum beg1).1 ≠ [])
    (hd : ¬ startsDigit (take_noalnum beg1).1 = true) :
    (take_alpha (take_noalnum beg1).1).1.length < beg1.length := by
  rcases hr : (take_noalnum beg1).1 with _ | ⟨c, t⟩
  · exact absurd hr hne
  · have hdw : beg1.dropWhile isSep = c :: t := hr
    have hne' : beg1.dropWhile isSep ≠ [] := by rw [hdw]; exact List.cons_ne_nil c t
    have hs : isSep ((beg1.dropWhile isSep).head hne') = false := by
      have := List.head_dropWhile_not isSep beg1 hne'
      simpa using this
    have hhead : (beg1.dropWhile isSep).head hne' = c := by
      simp [hdw]
    rw [hhead] at hs
    have halnum : c.isAlphanum = true := by
      simpa [isSep] using hs
    have hdig : c.isDigit = false := by
      rw [hr] at hd
      simpa [startsDigit] using hd
    have halpha : c.isAlpha = true := by
      rcases Bool.or_eq_true _ _ |>.mp (by simpa [Char.isAlphanum] using halnum) with h | h
      · exact h
      · rw [h] at hdig; cases hdig
    have h1 : (take_alpha (c :: t)).1.length < (c :: t).length :=
      dropWhile_length_lt Char.isAlpha c t halpha
    have h2 : (c :: t).length ≤ beg1.length := by
      rw [← hr]
      exact (beg1.dropWhile_sublist isSep).length_le
    exact Nat.lt_of_lt_of_le h1 h2

/-- Embedding of the main loop of `vercomp` (lines 37-100) together with the
post-loop logic (lines 102-116, `tailRule`).  The selection of `take_fn`
(lines 58-62) is inlined into the two kind branches; `none` models the panic
of the `unwrap`s on lines 80-81. -/
def vercompLoop (beg1 beg2 : List Char) : Option Ordering :=
  if atend beg1 beg2 then some (tailRule beg1 beg2)
  else if h2 : atend (take_noalnum beg1).1 (take_noalnum beg2).1 then
    some (tailRule (take_noalnum beg1).1 (take_noalnum beg2).1)
  else if (take_noalnum beg1).2.length ≠ (take_noalnum beg2).2.length then
    some (compare (take_noalnum beg1).2.length (take_noalnum beg2).2.length)
  else if hnum : startsDigit (take_noalnum beg1).1 then
    if (take_digits (take_noalnum beg2).1).2.isEmpty then some .gt
    else
      match u128_from_str (take_digits (take_noalnum beg1).1).2,
            u128_from_str (take_digits (take_noalnum beg2).1).2 with
      | some n1, some n2 =>
        match compare n1 n2 with
        | .eq => vercompLoop (take_digits (take_noalnum beg1).1).1
            (take_digits (take_noalnum beg2).1).1
        | v => some v
      | _, _ => none
  else
    if (take_alpha (take_noalnum beg2).1).2.isEmpty then some .lt
    else
      match str_cmp (take_alpha (take_noalnum beg1).1).2
            (take_alpha (take_noalnum beg2).1).2 with
      | .eq => vercompLoop (take_alpha (take_noalnum beg1).1).1
          (take_alpha (take_noalnum beg2).1).1
      | v => some v
termination_by beg1.length
decreasing_by
  · exact progress_digits beg1 hnum
  · refine progress_alpha beg1 ?_ hnum
    intro hnil
    rw [hnil] at h2
    simp [atend] at h2

/-- Embedding of `vercomp` (lines 27-117). -/
def vercomp (a b : List Char) : Option Ordering :=
  if a = b then some .eq else vercompLoop a b

/-- One `continue` iteration of the `vercomp` loop: `some (beg1', beg2')`
exactly when the loop body at cursors `(beg1, beg2)` reaches lines 98-99 and
iterates again with the new cursors. -/
def loopStep (beg1 beg2 : List Char) : Option (List Char × List Char) :=
  if atend beg1 beg2 then none
  else if atend (take_noalnum beg1).1 (take_noalnum beg2).1 then none
  else if (take_noalnum beg1).2.length ≠ (take_noalnum beg2).2.length then none
  else if startsDigit (take_noalnum beg1).1 then
    if (take_digits (take_noalnum beg2).1).2.isEmpty then none
    else
      match u128_from_str (take_digits (take_noalnum beg1).1).2,
            u128_from_str (take_digits (take_noalnum beg2).1).2 with
      | some n1, some n2 =>
        match compare n1 n2 with
        | .eq => some ((take_digits (take_noalnum beg1).1).1,
            (take_digits (take_noalnum beg2).1).1)
        | _ => none
      | _, _ => none
  else
    if (take_alpha (take_noalnum beg2).1).2.isEmpty then none
    else
      match str_cmp (take_alpha (take_noalnum beg1).1).2
            (take_alpha (take_noalnum beg2).1).2 with
      | .eq => some ((take_alpha (take_noalnum beg1).1).1,
          (take_alpha (take_noalnum beg2).1).1)
      | _ => none

/-- The loop body `break`s at cursors `(beg1, beg2)` (lines 39-48), with the
remainders handed to the post-loop logic. -/
def breakOf (beg1 beg2 : List Char) : Option (List Char × List Char) :=
  if atend beg1 beg2 then some (beg1, beg2)
  else if atend (take_noalnum beg1).1 (take_noalnum beg2).1 then
    some ((take_noalnum beg1).1, (take_noalnum beg2).1)
  else none

/-- The loop body at cursors `(beg1, beg2)` reaches the kind-mismatch return
(lines 67-76), recording whether the governing kind was numeric. -/
def mismatchAt (beg1 beg2 : List Char) : Option Bool :=
  if atend beg1 beg2 then none
  else if atend (take_noalnum beg1).1 (take_noalnum beg2).1 then none
  else if (take_noalnum beg1).2.length ≠ (take_noalnum beg2).2.length then none
  else if startsDigit (take_noalnum beg1).1 then
    if (take_digits (take_noalnum beg2).1).2.isEmpty then some true else none
  else
    if (take_alpha (take_noalnum beg2).1).2.isEmpty then some false else none

/-- Loop states reachable from the initial cursors by `continue` iterations. -/
def Reaches (p q : List Char × List Char) : Prop :=
  Relation.ReflTransGen (fun s t => loopStep s.1 s.2 = some t) p q

theorem step_eval {b1 b2 c1 c2 : List Char} (h : loopStep b1 b2 = some (c1, c2)) :
    vercompLoop b1 b2 = vercompLoop c1 c2 := by
  rw [vercompLoop.eq_def]
  unfold loopStep at h
  repeat' split at h
  all_goals simp_all

theorem break_eval {b1 b2 r1 r2 : List Char} (h : breakOf b1 b2 = some (r1, r2)) :
    vercompLoop b1 b2 = some (tailRule r1 r2) := by
  rw [vercompLoop.eq_def]
  unfold breakOf at h
  repeat' split at h
  all_goals simp_all

theorem mismatch_eval {b1 b2 : List Char} {isn : Bool} (h : mismatchAt b1 b2 = some isn) :
    vercompLoop b1 b2 = some (if isn then .gt else .lt) := by
  rw [vercompLoop.eq_def]
  unfold mismatchAt at h
  repeat' split at h
  all_goals simp_all

theorem reaches_eval {p q : List Char × List Char} (h : Reaches p q) :
    vercompLoop p.1 p.2 = vercompLoop q.1 q.2 := by
  induction h with
  | refl => rfl
  | tail _ hs ih => exact ih.trans (step_eval hs)

/-- Embedding of `VersionComponents` (lines 209-214). -/
structure VersionComponents where
  epoch : List Char
  version : List Char
  release : Option (List Char)
deriving DecidableEq

/-- Embedding of `str::rsplit_once(sep)`: split at the last occurrence of
`sep`, returning the text before and after it. -/
def rsplitOnce (sep : Char) : List Char → Option (List Char × List Char)
  | [] => none
  | c :: t =>
    match rsplitOnce sep t with
    | some (pre, post) => some (c :: pre, post)
    | none => if c = sep then some ([], t) else none

/-- Line 134 of `as_components`: `version.strip_prefix(':')`. -/
def strip_colon : List Char → Option (List Char)
  | ':' :: rest => some rest
  | _ => none

/-- Lines 144-147 of `as_components`: split `s` into version and release at
its last `-` via `rsplit_once('-')`. -/
def splitVR (ep s : List Char) : VersionComponents :=
  match rsplitOnce '-' s with
  | some (v, r) => ⟨ep, v, some r⟩
  | none => ⟨ep, s, none⟩

/-- Lines 130-141 of `as_components`: `take_digits` yields
`(version, epoch)`; the epoch is kept (and the leading `:` of the rest
dropped) exactly when the digit run is non-empty and the `:` is present,
otherwise the epoch is `"0"` and the string is `some_nocol.unwrap_or(evr)`:
the rest with the `:` stripped if there was one, the whole input if not. -/
def epochSplit (evr : List Char) : List Char × List Char :=
  match strip_colon (take_digits evr).1 with
  | some rest =>
    if (take_digits evr).2 ≠ [] then ((take_digits evr).2, rest)
    else (['0'], rest)
  | none => (['0'], evr)

/-- Embedding of `Version::as_components` (lines 127-150). -/
def as_components (evr : List Char) : VersionComponents :=
  splitVR (epochSplit evr).1 (epochSplit evr).2

/-- Embedding of `VersionComponents::to_version` (lines 217-226); the result
is the text of the produced `Version`. -/
def to_version (c : VersionComponents) : List Char :=
  let release := c.release.getD ['1']
  if c.epoch = ['0'] then c.version ++ '-' :: release
  else c.epoch ++ ':' :: c.version ++ '-' :: release

/-- The `then_with` chain of `Ord for VersionComponents` (lines 233-234):
compare the epochs, and on a tie the versions; `none` propagates a panic
(`then_with` only runs its closure when the first result is `Equal`). -/
def then_cmp (c1 c2 : VersionComponents) : Option Ordering :=
  match vercomp c1.epoch c2.epoch with
  | some .eq => vercomp c1.version c2.version
  | other => other

/-- Embedding of `Ord::cmp for VersionComponents` (lines 229-241). -/
def vc_cmp (c1 c2 : VersionComponents) : Option Ordering :=
  match then_cmp c1 c2 with
  | none => none
  | some res =>
    match res, c1.release, c2.release with
    | .eq, some rel1, some rel2 => vercomp rel1 rel2
    | res, _, _ => some res

/-- Embedding of `Ord::cmp for Version` (lines 185-189): the full three-way
comparison of two raw version strings (`total_compare` of the spec). -/
def version_cmp (a b : List Char) : Option Ordering :=
  vc_cmp (as_components a) (as_components b)

theorem rsplitOnce_join (sep : Char) :
    ∀ s pre post, rsplitOnce sep s = some (pre, post) → pre ++ sep :: post = s := by
  intro s
  induction s with
  | nil => intro pre post h; cases h
  | cons c t ih =>
    intro pre post h
    unfold rsplitOnce at h
    rcases hr : rsplitOnce sep t with _ | ⟨p, q⟩ <;> rw [hr] at h
    · by_cases hc : c = sep
      · rw [if_pos hc] at h
        simp only [Option.some.injEq, Prod.mk.injEq] at h
        obtain ⟨rfl, rfl⟩ := h
        simp [hc]
      · rw [if_neg hc] at h
        cases h
    · simp only [Option.some.injEq, Prod.mk.injEq] at h
      obtain ⟨rfl, rfl⟩ := h
      have := ih p q hr
      simp [← this]

/-- Reassemble the string that `as_components` split at its last `-` into
version and release. -/
def vrJoin (c : VersionComponents) : List Char :=
  match c.release with
  | some r => c.version ++ '-' :: r
  | none => c.version

theorem vrJoin_splitVR (ep s : List Char) : vrJoin (splitVR ep s) = s := by
  rcases hr : rsplitOnce '-' s with _ | ⟨v, r⟩
  · simp [splitVR, hr, vrJoin]
  · simp only [splitVR, hr, vrJoin]
    exact rsplitOnce_join '-' s v r hr

/-- C6: the raw-text fast path of `vercomp` (lines 30-32): two textually
identical inputs always compare `Equal`; with `a = b = v` this is
reflexivity, `vercomp v v = Equal`. -/
theorem vercomp_fast_path (a b : List Char) (h : a = b) :
    vercomp a b = some Ordering.eq := by
  rw [vercomp, if_pos h]

/-- Witness for `vercomp_fast_path` at `a = b = "1.0"`. -/
theorem vercomp_fast_path_witness :
    vercomp ['1', '.', '0'] ['1', '.', '0'] = some Ordering.eq :=
  vercomp_fast_path ['1', '.', '0'] ['1', '.', '0'] rfl

/-- C1 (failing input): with a first segment denoting `2 ^ 128` — the string
`"340282366920938463463374607431768211456"` — against `"0"`, the numeric
branch's `u128::from_str(...).unwrap()` (lines 80-81) panics, modelled as
`none`: `vercomp` does not return an `Ordering` for every input pair,
contrary to the claim (and to the comment `can't fail` on line 79). -/
theorem vercomp_overflow_panics :
    vercomp ['3','4','0','2','8','2','3','6','6','9','2','0','9','3','8','4',
      '6','3','4','6','3','3','7','4','6','0','7','4','3','1','7','6','8','2',
      '1','1','4','5','6'] ['0'] = none := by
  rw [vercomp, if_neg (by decide), vercompLoop.eq_def]
  decide

/-- C2 (counterexample): on the input `":a"`, which starts with `':'` and has
no leading digits, the decomposer does not keep the original string for the
version/release split: the version comes out as `"a"`, with the leading `':'`
dropped by `some_nocol.unwrap_or(evr)` (line 140). -/
theorem as_components_colon_cex :
    as_components [':', 'a'] = VersionComponents.mk ['0'] ['a'] none ∧
    (['a'] : List Char) ≠ [':', 'a'] := by
  constructor
  · decide
  · decide

theorem strip_colon_none {l : List Char} (h : l.head? ≠ some ':') :
    strip_colon l = none := by
  rcases l with _ | ⟨c, t⟩
  · rfl
  · have hc : c ≠ ':' := by
      intro he
      exact h (by simp [he])
    unfold strip_colon
    split
    · rename_i rest heq
      injection heq with h1 _
      exact absurd h1 hc
    · rfl

theorem strip_colon_cons (t : List Char) : strip_colon (':' :: t) = some t := rfl

theorem takeWhile_head {p : Char → Bool} {l t : List Char} {e : Char}
    (h : l.takeWhile p = e :: t) : l.head? = some e ∧ p e = true := by
  rcases l with _ | ⟨c, s⟩
  · cases h
  · rw [List.takeWhile_cons] at h
    by_cases hc : p c
    · rw [if_pos hc] at h
      injection h with h1 h2
      subst h1
      exact ⟨rfl, hc⟩
    · rw [if_neg hc] at h
      cases h

theorem take_digits_nil_fst {l : List Char} (h : (take_digits l).2 = []) :
    (take_digits l).1 = l := by
  rcases l with _ | ⟨c, t⟩
  · rfl
  · by_cases hc : c.isDigit
    · simp [take_digits, List.takeWhile_cons, hc] at h
    · simp [take_digits, List.dropWhile_cons, hc]

/-- C2 (amended): when the epoch condition fails (the leading digit run is
empty or not followed by `':'`), the epoch is `"0"` and the string used for
the version/release split is the original input, except that an input
beginning with `':'` (an empty digit run followed by a colon) still loses
that leading `':'` (`some_nocol.unwrap_or(evr)`, line 140). -/
theorem as_components_no_epoch (evr : List Char)
    (h : (take_digits evr).2 = [] ∨ (take_digits evr).1.head? ≠ some ':') :
    (as_components evr).epoch = ['0'] ∧
    vrJoin (as_components evr) = (if evr.head? = some ':' then evr.tail else evr) := by
  have hsplit : epochSplit evr = (['0'], if evr.head? = some ':' then evr.tail else evr) := by
    by_cases hcol : (take_digits evr).1.head? = some ':'
    · -- the rest after the digit run starts with ':'; by `h` the run is empty
      have h0 : (take_digits evr).2 = [] := by
        rcases h with h | h
        · exact h
        · exact absurd hcol h
      have hfst : (take_digits evr).1 = evr := take_digits_nil_fst h0
      rcases evr with _ | ⟨c, t⟩
      · rw [← hfst] at hcol
        cases hcol
      · have hc : c = ':' := by
          rw [hfst] at hcol
          simpa using hcol
        subst hc
        unfold epochSplit
        rw [hfst, strip_colon_cons]
        simp [h0]
    · -- no colon after the digit run: the fallback keeps the whole input
      unfold epochSplit
      rw [strip_colon_none hcol]
      have hev : evr.head? ≠ some ':' := by
        rcases he : (take_digits evr).2 with _ | ⟨d, ds⟩
        · rw [take_digits_nil_fst he] at hcol
          exact hcol
        · obtain ⟨hh, hd⟩ := takeWhile_head (p := Char.isDigit) he
          rw [hh]
          intro hcon
          have : d = ':' := by simpa using hcon
          subst this
          simp [Char.isDigit] at hd
      rw [if_neg hev]
  constructor
  · rw [as_components, hsplit]
    rcases hr : rsplitOnce '-' (if evr.head? = some ':' then evr.tail else evr) with _ | ⟨v, r⟩ <;>
      simp [splitVR, hr]
  · rw [as_components, hsplit]
    exact vrJoin_splitVR _ _

/-- Witness for `as_components_no_epoch` at `evr = ":a"`. -/
theorem as_components_no_epoch_witness :
    (as_components [':', 'a']).epoch = ['0'] ∧
    vrJoin (as_components [':', 'a']) =
      (if ([':', 'a'] : List Char).head? = some ':' then [':', 'a'].tail else [':', 'a']) :=
  as_components_no_epoch [':', 'a'] (Or.inl (by decide))

theorem tailRule_of_ne {r1 r2 : List Char} (h : ¬(r1 = [] ∧ r2 = [])) :
    tailRule r1 r2 =
      if (r1.isEmpty && !startsAlpha r2) || startsAlpha r1 then Ordering.lt
      else Ordering.gt := by
  unfold tailRule
  rw [if_neg]
  intro hc
  rcases Bool.and_eq_true _ _ |>.mp hc with ⟨hc1, hc2⟩
  exact h ⟨List.isEmpty_iff.mp hc1, List.isEmpty_iff.mp hc2⟩

/-- C3: whenever the main loop of `vercomp` stops with remainders `r1`, `r2`
not both empty, the overall result is `Less` exactly when `r1` is empty and
`r2` does not start with an ASCII letter, or `r1` starts with an ASCII letter,
and `Greater` otherwise (lines 102-116); in particular the full comparison of
`"1.0a"` against `"1.0"` is `Less`. -/
theorem vercomp_tail_rule (a b r1 r2 : List Char) (s : List Char × List Char)
    (hab : a ≠ b) (hreach : Reaches (a, b) s)
    (hbrk : breakOf s.1 s.2 = some (r1, r2)) (hne : ¬(r1 = [] ∧ r2 = [])) :
    vercomp a b =
      some (if (r1.isEmpty && !startsAlpha r2) || startsAlpha r1 then Ordering.lt
        else Ordering.gt) ∧
    version_cmp ['1', '.', '0', 'a'] ['1', '.', '0'] = some Ordering.lt := by
  constructor
  · rw [vercomp, if_neg hab]
    have h1 := reaches_eval hreach
    rw [show ((a, b).1 : List Char) = a from rfl, show ((a, b).2 : List Char) = b from rfl] at h1
    rw [h1, break_eval hbrk, tailRule_of_ne hne]
  · have hv : vercomp ['1', '.', '0', 'a'] ['1', '.', '0'] = some Ordering.lt := by
      rw [vercomp, if_neg (by decide)]
      rw [step_eval (show loopStep ['1', '.', '0', 'a'] ['1', '.', '0'] =
        some (['.', '0', 'a'], ['.', '0']) by decide)]
      rw [step_eval (show loopStep ['.', '0', 'a'] ['.', '0'] =
        some (['a'], []) by decide)]
      rw [break_eval (show breakOf ['a'] [] = some (['a'], []) by decide)]
      decide
    have hca : as_components ['1', '.', '0', 'a'] =
        VersionComponents.mk ['0'] ['1', '.', '0', 'a'] none := by decide
    have hcb : as_components ['1', '.', '0'] =
        VersionComponents.mk ['0'] ['1', '.', '0'] none := by decide
    unfold version_cmp
    rw [hca, hcb]
    unfold vc_cmp then_cmp
    rw [show vercomp ['0'] ['0'] = some Ordering.eq from by decide]
    simp [hv]

/-- Witness for `vercomp_tail_rule`: the loop on `("a", "")` breaks at once
with remainders `("a", [])`, and the tail rule yields `Less`. -/
theorem vercomp_tail_rule_witness :
    vercomp ['a'] [] =
      some (if ((['a'] : List Char).isEmpty && !startsAlpha []) || startsAlpha ['a']
        then Ordering.lt else Ordering.gt) ∧
    version_cmp ['1', '.', '0', 'a'] ['1', '.', '0'] = some Ordering.lt :=
  vercomp_tail_rule ['a'] [] ['a'] [] (['a'], []) (by decide)
    Relation.ReflTransGen.refl (by decide) (by decide)

/-- C4: whenever, at some loop iteration of `vercomp`, the run extracted from
`b`'s side with `a`'s detected kind is empty (the two next segments have
different kinds), `vercomp` returns `Greater` when `a`'s segment kind was
numeric and `Less` when it was alphabetic (lines 67-76). -/
theorem vercomp_kind_mismatch (a b : List Char) (s : List Char × List Char)
    (isn : Bool) (hab : a ≠ b) (hreach : Reaches (a, b) s)
    (hmis : mismatchAt s.1 s.2 = some isn) :
    vercomp a b = some (if isn then Ordering.gt else Ordering.lt) := by
  rw [vercomp, if_neg hab]
  have h1 := reaches_eval hreach
  rw [show ((a, b).1 : List Char) = a from rfl, show ((a, b).2 : List Char) = b from rfl] at h1
  rw [h1, mismatch_eval hmis]

/-- Witness for `vercomp_kind_mismatch`: comparing `"a"` with `"0"`, the very
first iteration hits the kind mismatch with an alphabetic governing kind. -/
theorem vercomp_kind_mismatch_witness :
    vercomp ['a'] ['0'] = some (if false then Ordering.gt else Ordering.lt) :=
  vercomp_kind_mismatch ['a'] ['0'] (['a'], ['0']) false (by decide)
    Relation.ReflTransGen.refl (by decide)

/-- C7: releases are compared only when the epoch/version chain ties with
`Equal` and both releases are present (lines 236-239); in every other case —
either release absent, or the epoch/version result not `Equal` (including a
panic there) — the epoch/version result, `Equal` included, stands: so
`"1.0"` and `"1.0-1"` compare `Equal` and `"1.0"` decomposes with no
release. -/
theorem vc_cmp_release_gate (c1 c2 : VersionComponents)
    (h : c1.release = none ∨ c2.release = none ∨ then_cmp c1 c2 ≠ some Ordering.eq) :
    vc_cmp c1 c2 = then_cmp c1 c2 ∧
    version_cmp ['1', '.', '0'] ['1', '.', '0', '-', '1'] = some Ordering.eq ∧
    (as_components ['1', '.', '0']).release = none := by
  refine ⟨?_, by decide, by decide⟩
  rcases htc : then_cmp c1 c2 with _ | res
  · simp [vc_cmp, htc]
  · rcases res with _ | _ | _
    · rcases hr1 : c1.release <;> rcases hr2 : c2.release <;> simp [vc_cmp, htc, hr1, hr2]
    · have hrel : c1.release = none ∨ c2.release = none := by
        rcases h with h | h | h
        · exact Or.inl h
        · exact Or.inr h
        · exact absurd htc h
      rcases hrel with h1 | h1 <;>
        rcases hr1 : c1.release <;> rcases hr2 : c2.release <;>
        simp_all [vc_cmp, htc]
    · rcases hr1 : c1.release <;> rcases hr2 : c2.release <;> simp [vc_cmp, htc, hr1, hr2]

/-- Witness for `vc_cmp_release_gate` on two components that both carry a
release but whose version comparison is not `Equal`: the releases are
skipped and the version result stands. -/
theorem vc_cmp_release_gate_witness :
    vc_cmp (VersionComponents.mk ['0'] ['1'] (some ['5']))
        (VersionComponents.mk ['0'] ['2'] (some ['7'])) =
      then_cmp (VersionComponents.mk ['0'] ['1'] (some ['5']))
        (VersionComponents.mk ['0'] ['2'] (some ['7'])) ∧
    version_cmp ['1', '.', '0'] ['1', '.', '0', '-', '1'] = some Ordering.eq ∧
    (as_components ['1', '.', '0']).release = none :=
  vc_cmp_release_gate (VersionComponents.mk ['0'] ['1'] (some ['5']))
    (VersionComponents.mk ['0'] ['2'] (some ['7']))
    (Or.inr (Or.inr (by
      have hv : vercomp ['1'] ['2'] = some Ordering.lt := by
        rw [vercomp, if_neg (by decide), vercompLoop.eq_def]
        decide
      have he : vercomp ['0'] ['0'] = some Ordering.eq := by decide
      intro hcon
      unfold then_cmp at hcon
      rw [he, hv] at hcon
      cases hcon)))

/-- C8: `to_version` substitutes the literal `"1"` for a missing release,
renders `version-release` when the epoch is `"0"` and
`epoch:version-release` otherwise (lines 217-226), and the
decompose-then-compose round trip is the identity on `"2:1.0-1"`. -/
theorem to_version_spec :
    (∀ e v, to_version (VersionComponents.mk e v none) =
      to_version (VersionComponents.mk e v (some ['1']))) ∧
    (∀ v r, to_version (VersionComponents.mk ['0'] v (some r)) = v ++ '-' :: r) ∧
    (∀ e v r, e ≠ ['0'] → to_version (VersionComponents.mk e v (some r)) =
      e ++ ':' :: v ++ '-' :: r) ∧
    to_version (as_components ['2', ':', '1', '.', '0', '-', '1']) =
      ['2', ':', '1', '.', '0', '-', '1'] := by
  refine ⟨fun e v => rfl, fun v r => ?_, fun e v r h => ?_, by decide⟩
  · simp [to_version]
  · simp [to_version, h]

/-- Witness for `to_version_spec` with the non-`"0"` epoch `"2"`. -/
theorem to_version_spec_witness :
    to_version (VersionComponents.mk ['2'] ['1'] (some ['1'])) =
      ['2'] ++ ':' :: ['1'] ++ '-' :: ['1'] :=
  to_version_spec.2.2.1 ['2'] ['1'] ['1'] (by decide)

theorem strip_colon_some {l t : List Char} (h : strip_colon l = some t) :
    l = ':' :: t := by
  rcases l with _ | ⟨c, s⟩
  · cases h
  · by_cases hc : c = ':'
    · subst hc
      rw [strip_colon_cons] at h
      injection h with h1
      rw [h1]
    · rw [strip_colon_none (by simp [hc])] at h
      cases h

theorem splitVR_epoch (ep s : List Char) : (splitVR ep s).epoch = ep := by
  rcases hr : rsplitOnce '-' s with _ | ⟨v, r⟩ <;> simp [splitVR, hr]

/-- C10: the epoch produced by the decomposition is always a non-empty string
of ASCII digits: it is either the literal `"0"` or the input's maximal
leading digit run, the latter exactly when that run is non-empty and is
followed by `':'` (lines 130-141). -/
theorem epoch_invariant (evr : List Char) :
    ((as_components evr).epoch ≠ [] ∧
      ∀ c ∈ (as_components evr).epoch, c.isDigit = true) ∧
    ((as_components evr).epoch = ['0'] ∨
      ((as_components evr).epoch = evr.takeWhile Char.isDigit ∧
        evr.takeWhile Char.isDigit ≠ [] ∧
        (evr.dropWhile Char.isDigit).head? = some ':')) := by
  have hep : (as_components evr).epoch = (epochSplit evr).1 :=
    splitVR_epoch (epochSplit evr).1 (epochSplit evr).2
  rcases hsc : strip_colon (take_digits evr).1 with _ | rest
  · have h1 : (epochSplit evr).1 = ['0'] := by
      unfold epochSplit
      rw [hsc]
    rw [hep, h1]
    exact ⟨⟨by decide, by decide⟩, Or.inl rfl⟩
  · by_cases he : (take_digits evr).2 = []
    · have : (epochSplit evr).1 = ['0'] := by
        unfold epochSplit
        rw [hsc]
        simp [he]
      rw [hep, this]
      exact ⟨⟨by decide, by decide⟩, Or.inl rfl⟩
    · have : (epochSplit evr).1 = (take_digits evr).2 := by
        unfold epochSplit
        rw [hsc]
        simp [he]
      rw [hep, this]
      have hcol : (evr.dropWhile Char.isDigit).head? = some ':' := by
        have := strip_colon_some hsc
        rw [show (take_digits evr).1 = evr.dropWhile Char.isDigit from rfl] at this
        rw [this]
        rfl
      refine ⟨⟨he, fun c hc => List.mem_takeWhile_imp hc⟩, Or.inr ⟨rfl, he, hcol⟩⟩

/-- Witness instantiating `epoch_invariant` at `"2:a"`. -/
theorem epoch_invariant_witness :
    ((as_components ['2', ':', 'a']).epoch ≠ [] ∧
      ∀ c ∈ (as_components ['2', ':', 'a']).epoch, c.isDigit = true) ∧
    ((as_components ['2', ':', 'a']).epoch = ['0'] ∨
      ((as_components ['2', ':', 'a']).epoch = ['2', ':', 'a'].takeWhile Char.isDigit ∧
        ['2', ':', 'a'].takeWhile Char.isDigit ≠ [] ∧
        (['2', ':', 'a'].dropWhile Char.isDigit).head? = some ':')) :=
  epoch_invariant ['2', ':', 'a']

/-- C9: numeric segments compare by integer value, so two digit runs denoting
the same number — leading zeros notwithstanding — compare `Equal`
(lines 78-88, within the 128-bit range the parse supports); in particular
`"1.05"` and `"1.5"` compare `Equal`. -/
theorem vercomp_numeric_value (d1 d2 : List Char)
    (h1 : d1 ≠ []) (hd1 : ∀ c ∈ d1, c.isDigit = true)
    (h2 : d2 ≠ []) (hd2 : ∀ c ∈ d2, c.isDigit = true)
    (hval : digitsVal d1 = digitsVal d2) (hfit : digitsVal d1 < 2 ^ 128) :
    vercomp d1 d2 = some Ordering.eq ∧
    vercomp ['1', '.', '0', '5'] ['1', '.', '5'] = some Ordering.eq := by
  constructor
  · rcases d1 with _ | ⟨c1, t1⟩
    · exact absurd rfl h1
    rcases d2 with _ | ⟨c2, t2⟩
    · exact absurd rfl h2
    have hc1 : c1.isDigit = true := hd1 c1 (by simp)
    have hc2 : c2.isDigit = true := hd2 c2 (by simp)
    by_cases heq : (c1 :: t1 : List Char) = c2 :: t2
    · rw [vercomp, if_pos heq]
    · have hsep1 : isSep c1 = false := by simp [isSep, Char.isAlphanum, hc1]
      have hsep2 : isSep c2 = false := by simp [isSep, Char.isAlphanum, hc2]
      have hta : take_noalnum (c1 :: t1) = (c1 :: t1, []) := by
        simp [take_noalnum, List.dropWhile_cons, List.takeWhile_cons, hsep1]
      have htb : take_noalnum (c2 :: t2) = (c2 :: t2, []) := by
        simp [take_noalnum, List.dropWhile_cons, List.takeWhile_cons, hsep2]
      have htw1 : take_digits (c1 :: t1) = ([], c1 :: t1) := by
        simp [take_digits, List.takeWhile_eq_self_iff.mpr hd1,
          List.dropWhile_eq_nil_iff.mpr hd1]
      have htw2 : take_digits (c2 :: t2) = ([], c2 :: t2) := by
        simp [take_digits, List.takeWhile_eq_self_iff.mpr hd2,
          List.dropWhile_eq_nil_iff.mpr hd2]
      have hu1 : u128_from_str (c1 :: t1) = some (digitsVal (c1 :: t1)) := by
        unfold u128_from_str
        rw [if_pos hfit]
      have hu2 : u128_from_str (c2 :: t2) = some (digitsVal (c2 :: t2)) := by
        unfold u128_from_str
        rw [if_pos (hval ▸ hfit)]
      have hcmp : compare (digitsVal (c1 :: t1)) (digitsVal (c2 :: t2)) = Ordering.eq :=
        Nat.compare_eq_eq.mpr hval
      have hstep : loopStep (c1 :: t1) (c2 :: t2) = some ([], []) := by
        simp [loopStep, atend, hta, htb, htw1, htw2, hu1, hu2, hcmp, startsDigit, hc1]
      rw [vercomp, if_neg heq, step_eval hstep,
        break_eval (show breakOf ([] : List Char) [] = some ([], []) by decide)]
      decide
  · rw [vercomp, if_neg (by decide)]
    rw [step_eval (show loopStep ['1', '.', '0', '5'] ['1', '.', '5'] =
      some (['.', '0', '5'], ['.', '5']) by decide)]
    rw [step_eval (show loopStep ['.', '0', '5'] ['.', '5'] = some ([], []) by decide)]
    rw [break_eval (show breakOf ([] : List Char) [] = some ([], []) by decide)]
    decide

/-- Witness for `vercomp_numeric_value` on the runs `"05"` and `"5"`. -/
theorem vercomp_numeric_value_witness :
    vercomp ['0', '5'] ['5'] = some Ordering.eq ∧
    vercomp ['1', '.', '0', '5'] ['1', '.', '5'] = some Ordering.eq :=
  vercomp_numeric_value ['0', '5'] ['5'] (by decide) (by decide) (by decide)
    (by decide) (by decide) (by decide)

theorem digit_not_alpha {c : Char} (h : c.isDigit = true) : c.isAlpha = false := by
  simp only [Char.isDigit, Char.isAlpha, Char.isUpper, Char.isLower] at *
  simp only [Bool.and_eq_true, decide_eq_true_eq] at h
  simp only [Bool.or_eq_false_iff, Bool.and_eq_false_iff, decide_eq_false_iff_not, not_le]
  obtain ⟨h1, h2⟩ := h
  have h1' : 48 ≤ c.val.toNat := h1
  have h2' : c.val.toNat ≤ 57 := h2
  refine ⟨Or.inl fun hc => ?_, Or.inl fun hc => ?_⟩
  · have hc' : 65 ≤ c.val.toNat := hc
    omega
  · have hc' : 97 ≤ c.val.toNat := hc
    omega

theorem alnum_not_digit_alpha {c : Char} (h1 : c.isAlphanum = true)
    (h2 : c.isDigit = false) : c.isAlpha = true := by
  rcases Bool.or_eq_true _ _ |>.mp (by simpa [Char.isAlphanum] using h1) with h | h
  · exact h
  · rw [h] at h2
    cases h2

theorem rem_head_alnum {beg : List Char} {c : Char} {t : List Char}
    (h : (take_noalnum beg).1 = c :: t) : c.isAlphanum = true := by
  have hdw : beg.dropWhile isSep = c :: t := h
  have hne' : beg.dropWhile isSep ≠ [] := by
    rw [hdw]
    exact List.cons_ne_nil c t
  have hs := List.head_dropWhile_not isSep beg hne'
  rw [show (beg.dropWhile isSep).head hne' = c from by simp [hdw]] at hs
  simpa [isSep] using hs

theorem atend_true_iff {x y : List Char} : atend x y = true ↔ x = [] ∨ y = [] := by
  simp [atend, List.isEmpty_iff]

theorem atend_comm (x y : List Char) : atend x y = atend y x := by
  simp [atend, Bool.or_comm]

theorem tailRule_swap {r1 r2 : List Char} (h : r1 = [] ∨ r2 = []) :
    tailRule r1 r2 = (tailRule r2 r1).swap := by
  rcases h with rfl | rfl
  · rcases r2 with _ | ⟨c, t⟩
    · rfl
    · by_cases hc : c.isAlpha <;> simp [tailRule, startsAlpha, hc, Ordering.swap]
  · rcases r1 with _ | ⟨c, t⟩
    · rfl
    · by_cases hc : c.isAlpha <;> simp [tailRule, startsAlpha, hc, Ordering.swap]

theorem str_cmp_swap : ∀ a b : List Char, str_cmp a b = (str_cmp b a).swap := by
  intro a
  induction a with
  | nil =>
    intro b
    rcases b with _ | ⟨y, ys⟩ <;> rfl
  | cons x xs ih =>
    intro b
    rcases b with _ | ⟨y, ys⟩
    · rfl
    · have h2 : compare y.toNat x.toNat = (compare x.toNat y.toNat).swap :=
        (Nat.compare_swap _ _).symm
      show (match compare x.toNat y.toNat with
            | .eq => str_cmp xs ys
            | o => o) =
          (match compare y.toNat x.toNat with
            | .eq => str_cmp ys xs
            | o => o).swap
      rcases hcmp : compare x.toNat y.toNat with _ | _ | _ <;>
        rw [hcmp] at h2 <;> rw [h2] <;> simp [Ordering.swap, ih ys]

theorem take_digits_snd_nil {c : Char} (t : List Char) (h : c.isDigit = false) :
    (take_digits (c :: t)).2 = [] := by
  simp [take_digits, List.takeWhile_cons, h]

theorem take_alpha_snd_nil {c : Char} (t : List Char) (h : c.isAlpha = false) :
    (take_alpha (c :: t)).2 = [] := by
  simp [take_alpha, List.takeWhile_cons, h]

theorem take_digits_snd_isEmpty {c : Char} (t : List Char) (h : c.isDigit = true) :
    (take_digits (c :: t)).2.isEmpty = false := by
  simp [take_digits, List.takeWhile_cons, h]

theorem take_alpha_snd_isEmpty {c : Char} (t : List Char) (h : c.isAlpha = true) :
    (take_alpha (c :: t)).2.isEmpty = false := by
  simp [take_alpha, List.takeWhile_cons, h]

theorem vercompLoop_swap (a b : List Char) :
    vercompLoop a b = (vercompLoop b a).map Ordering.swap := by
  suffices H : ∀ n (a b : List Char), a.length ≤ n →
      vercompLoop a b = (vercompLoop b a).map Ordering.swap from
    H a.length a b le_rfl
  intro n
  induction n with
  | zero =>
    intro a b ha
    have hanil : a = [] := List.length_eq_zero.mp (Nat.le_zero.mp ha)
    subst hanil
    rw [vercompLoop.eq_def [] b, vercompLoop.eq_def b []]
    rw [if_pos (show atend [] b = true by simp [atend])]
    rw [if_pos (show atend b [] = true by simp [atend])]
    rw [Option.map_some']
    exact congrArg some (tailRule_swap (Or.inl rfl))
  | succ n ih =>
    intro a b ha
    rw [vercompLoop.eq_def a b, vercompLoop.eq_def b a]
    by_cases h0 : atend a b = true
    · rw [if_pos h0, if_pos (show atend b a = true by rw [atend_comm b a]; exact h0)]
      rw [Option.map_some']
      exact congrArg some (tailRule_swap (atend_true_iff.mp h0))
    · have h0' : ¬ atend b a = true := by
        rw [atend_comm b a]
        exact h0
      rw [if_neg h0, if_neg h0']
      by_cases h1 : atend (take_noalnum a).1 (take_noalnum b).1 = true
      · have h1' : atend (take_noalnum b).1 (take_noalnum a).1 = true := by
          rw [atend_comm]
          exact h1
        rw [dif_pos h1, dif_pos h1', Option.map_some']
        exact congrArg some (tailRule_swap (atend_true_iff.mp h1))
      · have h1' : ¬ atend (take_noalnum b).1 (take_noalnum a).1 = true := by
          rw [atend_comm]
          exact h1
        rw [dif_neg h1, dif_neg h1']
        by_cases h2 : (take_noalnum a).2.length = (take_noalnum b).2.length
        · rw [if_neg (show ¬((take_noalnum a).2.length ≠ (take_noalnum b).2.length) from
              fun hne => hne h2),
            if_neg (show ¬((take_noalnum b).2.length ≠ (take_noalnum a).2.length) from
              fun hne => hne h2.symm)]
          have hne1 : (take_noalnum a).1 ≠ [] := fun hnil =>
            h1 (atend_true_iff.mpr (Or.inl hnil))
          have hne2 : (take_noalnum b).1 ≠ [] := fun hnil =>
            h1 (atend_true_iff.mpr (Or.inr hnil))
          obtain ⟨c1, t1, hr1⟩ := List.exists_cons_of_ne_nil hne1
          obtain ⟨c2, t2, hr2⟩ := List.exists_cons_of_ne_nil hne2
          have han1 : c1.isAlphanum = true := rem_head_alnum hr1
          have han2 : c2.isAlphanum = true := rem_head_alnum hr2
          by_cases hd1 : c1.isDigit = true
          · have hsd1 : startsDigit (take_noalnum a).1 = true := by
              rw [hr1]
              exact hd1
            by_cases hd2 : c2.isDigit = true
            · -- both segments numeric
              have hsd2 : startsDigit (take_noalnum b).1 = true := by
                rw [hr2]
                exact hd2
              rw [dif_pos hsd1, dif_pos hsd2]
              have hcne1 : (take_digits (take_noalnum a).1).2.isEmpty = false := by
                rw [hr1]
                exact take_digits_snd_isEmpty t1 hd1
              have hcne2 : (take_digits (take_noalnum b).1).2.isEmpty = false := by
                rw [hr2]
                exact take_digits_snd_isEmpty t2 hd2
              rw [if_neg (show ¬((take_digits (take_noalnum b).1).2.isEmpty = true) by
                  simp [hcne2]),
                if_neg (show ¬((take_digits (take_noalnum a).1).2.isEmpty = true) by
                  simp [hcne1])]
              rcases hu1 : u128_from_str (take_digits (take_noalnum a).1).2 with _ | n1 <;>
                rcases hu2 : u128_from_str (take_digits (take_noalnum b).1).2 with _ | n2
              · rfl
              · rfl
              · rfl
              · show (match compare n1 n2 with
                  | Ordering.eq => vercompLoop (take_digits (take_noalnum a).1).1
                      (take_digits (take_noalnum b).1).1
                  | v => some v) =
                  Option.map Ordering.swap
                    (match compare n2 n1 with
                      | Ordering.eq => vercompLoop (take_digits (take_noalnum b).1).1
                          (take_digits (take_noalnum a).1).1
                      | v => some v)
                have hswap : compare n2 n1 = (compare n1 n2).swap :=
                  (Nat.compare_swap n1 n2).symm
                rcases hc : compare n1 n2 with _ | _ | _ <;>
                  rw [hc] at hswap <;> rw [hswap]
                · simp [Ordering.swap]
                · show vercompLoop _ _ = (vercompLoop _ _).map Ordering.swap
                  refine ih _ _ ?_
                  have hlt := progress_digits a hsd1
                  exact Nat.lt_succ_iff.mp (Nat.lt_of_lt_of_le hlt ha)
                · simp [Ordering.swap]
            · -- `a` numeric against `b` alphabetic: the kind mismatch
              have hsd2 : startsDigit (take_noalnum b).1 = false := by
                rw [hr2]
                simpa [startsDigit] using hd2
              rw [dif_pos hsd1,
                dif_neg (show ¬(startsDigit (take_noalnum b).1 = true) by
                  rw [hsd2]; exact Bool.false_ne_true)]
              have hc2e : (take_digits (take_noalnum b).1).2 = [] := by
                rw [hr2]
                exact take_digits_snd_nil t2 (by simpa using hd2)
              rw [if_pos (show (take_digits (take_noalnum b).1).2.isEmpty = true by
                rw [hc2e]; rfl)]
              have hc1e : (take_alpha (take_noalnum a).1).2 = [] := by
                rw [hr1]
                exact take_alpha_snd_nil t1 (digit_not_alpha hd1)
              rw [if_pos (show (take_alpha (take_noalnum a).1).2.isEmpty = true by
                rw [hc1e]; rfl)]
              rfl
          · have hsd1 : startsDigit (take_noalnum a).1 = false := by
              rw [hr1]
              simpa [startsDigit] using hd1
            have hal1 : c1.isAlpha = true :=
              alnum_not_digit_alpha han1 (by simpa using hd1)
            by_cases hd2 : c2.isDigit = true
            · -- `a` alphabetic against `b` numeric: the kind mismatch
              have hsd2 : startsDigit (take_noalnum b).1 = true := by
                rw [hr2]
                exact hd2
              rw [dif_neg (show ¬(startsDigit (take_noalnum a).1 = true) by
                  rw [hsd1]; exact Bool.false_ne_true),
                dif_pos hsd2]
              have hc2e : (take_alpha (take_noalnum b).1).2 = [] := by
                rw [hr2]
                exact take_alpha_snd_nil t2 (digit_not_alpha hd2)
              rw [if_pos (show (take_alpha (take_noalnum b).1).2.isEmpty = true by
                rw [hc2e]; rfl)]
              have hc1e : (take_digits (take_noalnum a).1).2 = [] := by
                rw [hr1]
                exact take_digits_snd_nil t1 (by simpa using hd1)
              rw [if_pos (show (take_digits (take_noalnum a).1).2.isEmpty = true by
                rw [hc1e]; rfl)]
              rfl
            · -- both segments alphabetic
              have hsd2 : startsDigit (take_noalnum b).1 = false := by
                rw [hr2]
                simpa [startsDigit] using hd2
              have hal2 : c2.isAlpha = true :=
                alnum_not_digit_alpha han2 (by simpa using hd2)
              rw [dif_neg (show ¬(startsDigit (take_noalnum a).1 = true) by
                  rw [hsd1]; exact Bool.false_ne_true),
                dif_neg (show ¬(startsDigit (take_noalnum b).1 = true) by
                  rw [hsd2]; exact Bool.false_ne_true)]
              have hcne1 : (take_alpha (take_noalnum a).1).2.isEmpty = false := by
                rw [hr1]
                exact take_alpha_snd_isEmpty t1 hal1
              have hcne2 : (take_alpha (take_noalnum b).1).2.isEmpty = false := by
                rw [hr2]
                exact take_alpha_snd_isEmpty t2 hal2
              rw [if_neg (show ¬((take_alpha (take_noalnum b).1).2.isEmpty = true) by
                  simp [hcne2]),
                if_neg (show ¬((take_alpha (take_noalnum a).1).2.isEmpty = true) by
                  simp [hcne1])]
              have hswap : str_cmp (take_alpha (take_noalnum b).1).2
                    (take_alpha (take_noalnum a).1).2 =
                  (str_cmp (take_alpha (take_noalnum a).1).2
                    (take_alpha (take_noalnum b).1).2).swap :=
                str_cmp_swap _ _
              rcases hsc : str_cmp (take_alpha (take_noalnum a).1).2
                  (take_alpha (take_noalnum b).1).2 with _ | _ | _ <;>
                rw [hsc] at hswap <;> rw [hswap]
              · simp [Ordering.swap]
              · show vercompLoop _ _ = (vercompLoop _ _).map Ordering.swap
                refine ih _ _ ?_
                have hlt := progress_alpha a hne1
                  (by rw [hsd1]; exact Bool.false_ne_true)
                exact Nat.lt_succ_iff.mp (Nat.lt_of_lt_of_le hlt ha)
              · simp [Ordering.swap]
        · rw [if_pos (show ((take_noalnum a).2.length ≠ (take_noalnum b).2.length) from h2),
            if_pos (show ((take_noalnum b).2.length ≠ (take_noalnum a).2.length) from
              fun he => h2 he.symm)]
          rw [Option.map_some']
          exact congrArg some (Nat.compare_swap _ _).symm

/-- C5: `vercomp` is antisymmetric: swapping the arguments swaps the result
(`Less` ↔ `Greater`, `Equal` ↔ `Equal`; a panic corresponds to a panic). -/
theorem vercomp_antisymm (a b : List Char) :
    vercomp a b = (vercomp b a).map Ordering.swap ∧
    (vercomp a b = some Ordering.lt ↔ vercomp b a = some Ordering.gt) ∧
    (vercomp a b = some Ordering.eq ↔ vercomp b a = some Ordering.eq) := by
  have hmain : vercomp a b = (vercomp b a).map Ordering.swap := by
    by_cases hab : a = b
    · subst hab
      rw [vercomp, if_pos rfl]
      rfl
    · rw [vercomp, if_neg hab,
        show vercomp b a = vercompLoop b a from by
          rw [vercomp, if_neg (fun h => hab h.symm)]]
      exact vercompLoop_swap a b
  refine ⟨hmain, ?_, ?_⟩
  · rcases hba : vercomp b a with _ | o
    · rw [hba] at hmain
      simp at hmain
      simp [hmain, hba]
    · rw [hba] at hmain
      rcases o <;> simp [hmain, hba, Ordering.swap]
  · rcases hba : vercomp b a with _ | o
    · rw [hba] at hmain
      simp at hmain
      simp [hmain, hba]
    · rw [hba] at hmain
      rcases o <;> simp [hmain, hba, Ordering.swap]

/-- C9 (counterexample): the digit runs `"0340282366920938463463374607431768211456"`
and `"340282366920938463463374607431768211456"` denote the same integer
(`2 ^ 128`), yet the segment comparison does not return `Equal`: the
`u128::from_str(...).unwrap()` on line 80 panics on overflow. -/
theorem vercomp_numeric_value_cex :
    vercomp ['0', '3','4','0','2','8','2','3','6','6','9','2','0','9','3','8','4',
        '6','3','4','6','3','3','7','4','6','0','7','4','3','1','7','6','8','2',
        '1','1','4','5','6']
      ['3','4','0','2','8','2','3','6','6','9','2','0','9','3','8','4',
        '6','3','4','6','3','3','7','4','6','0','7','4','3','1','7','6','8','2',
        '1','1','4','5','6'] = none ∧
    digitsVal ['0', '3','4','0','2','8','2','3','6','6','9','2','0','9','3','8','4',
        '6','3','4','6','3','3','7','4','6','0','7','4','3','1','7','6','8','2',
        '1','1','4','5','6'] =
      digitsVal ['3','4','0','2','8','2','3','6','6','9','2','0','9','3','8','4',
        '6','3','4','6','3','3','7','4','6','0','7','4','3','1','7','6','8','2',
        '1','1','4','5','6'] := by
  constructor
  · rw [vercomp, if_neg (by decide), vercompLoop.eq_def]
    decide
  · decide
